import Mathlib

/-!
# Verification of the EEMBC `autcor00` fixed-point autocorrelation kernel

Shallow embedding of `fxpAutoCorrelation` from `telecom/autcor00/autcor00.c`
and proofs of the specified properties.

The C kernel is:

```
void fxpAutoCorrelation (e_s16 *InputData, e_s16 *AutoCorrData,
                         e_s16 DataSize, e_s16 NumberOfLags, e_s16 Scale)
{
    n_int i, lag, LastIndex;
    e_s32 Accumulator;
    for (lag = 0; lag < NumberOfLags; lag++) {
        Accumulator = 0;
        LastIndex = DataSize - lag;
        for (i = 0; i < LastIndex; i++) {
            Accumulator += ((e_s32) InputData[i] * (e_s32) InputData[i+lag]) >> Scale;
        }
        AutoCorrData[lag] = (e_s16) (Accumulator >> 16);
    }
}
```

Machine integers are modelled as `Int` with explicit two's-complement
truncation (`toS16`, `toS32`). Arithmetic right shift on a signed value is
floor division by a power of two (`asr`). Array accesses are modelled with
`Option`-returning indexing so out-of-bounds accesses are observable; the
loops are fuelled by their (exact) iteration counts, which are determined
by the loop bounds of the C code.
-/

/-- Two's-complement truncation of an integer to 16 bits (the C cast
`(e_s16) x`). -/
def toS16 (n : Int) : Int := (n + 2 ^ 15) % 2 ^ 16 - 2 ^ 15

/-- Two's-complement truncation of an integer to 32 bits (arithmetic in the
C type `e_s32`). -/
def toS32 (n : Int) : Int := (n + 2 ^ 31) % 2 ^ 32 - 2 ^ 31

/-- Arithmetic (sign-extending) right shift of `x` by `s` bits: floor
division by `2 ^ s`.  The C `>>` on a signed left operand is modelled as the
arithmetic shift, which is what the spec requires and what the benchmark
assumes; a negative shift count is undefined behaviour in C and is modelled
through `Int.toNat` (claims only ever use `s ≥ 0`). -/
def asr (x : Int) (s : Int) : Int := Int.fdiv x (2 ^ s.toNat)

/-- The inner loop of `fxpAutoCorrelation`:
`for (i = 0; i < LastIndex; i++) Accumulator += ((e_s32)InputData[i] * (e_s32)InputData[i+lag]) >> Scale;`
`i` is the current loop index, `fuel` the number of remaining iterations
(`LastIndex - i`), `acc` the current accumulator.  Reads are
`Option`-returning: an out-of-bounds read aborts with `none`. -/
def accumLoop (input : List Int) (lag : Nat) (scale : Int) :
    Nat → Nat → Int → Option Int
  | _, 0, acc => some acc
  | i, fuel + 1, acc =>
    match input[i]?, input[i + lag]? with
    | some a, some b =>
        accumLoop input lag scale (i + 1) fuel
          (toS32 (acc + asr (toS32 (a * b)) scale))
    | _, _ => none

/-- The outer loop of `fxpAutoCorrelation`: one iteration per lag.
`lag` is the current lag, `fuel` the number of remaining iterations
(`NumberOfLags - lag`), `out` the current contents of `AutoCorrData`.
Each iteration resets the accumulator to `0`, runs the inner loop for
`LastIndex = DataSize - lag` iterations and stores
`(e_s16)(Accumulator >> 16)` at index `lag`; an out-of-bounds write aborts
with `none`. -/
def outerLoop (input : List Int) (dataSize scale : Int) :
    Nat → Nat → List Int → Option (List Int)
  | _, 0, out => some out
  | lag, fuel + 1, out =>
    match accumLoop input lag scale 0 (dataSize - (lag : Int)).toNat 0 with
    | none => none
    | some acc =>
        if lag < out.length then
          outerLoop input dataSize scale (lag + 1) fuel
            (out.set lag (toS16 (asr acc 16)))
        else none

/-- Shallow embedding of `fxpAutoCorrelation`.  `input` models the array
`InputData`, `out` the initial contents of `AutoCorrData`; the result is the
final contents of `AutoCorrData` (or `none` if an array access was out of
bounds).  The outer loop `for (lag = 0; lag < NumberOfLags; lag++)` runs
exactly `NumberOfLags.toNat` iterations. -/
def fxpAutoCorrelation (input out : List Int)
    (dataSize numberOfLags scale : Int) : Option (List Int) :=
  outerLoop input dataSize scale 0 numberOfLags.toNat out

/-- The accumulator for lag `lag` written as a pure fold, per the spec: the
32-bit accumulator formed by summing, for `i` from `0` to `n - 1`, the
32-bit widened product `input[i] * input[i+lag]` arithmetically
right-shifted by `scale` bits. -/
def specAccum (input : List Int) (lag : Nat) (scale : Int) (n : Nat) : Int :=
  (List.range n).foldl
    (fun acc i =>
      toS32 (acc + asr (toS32 (input.getD i 0 * input.getD (i + lag) 0)) scale))
    0

/-- The spec-level value of output coefficient `lag`: the 16-bit
two's-complement truncation of the arithmetic right shift by 16 of the
accumulator over `dataSize - lag` product terms. -/
def specCoeff (input : List Int) (dataSize scale : Int) (lag : Nat) : Int :=
  toS16 (asr (specAccum input lag scale (dataSize - (lag : Int)).toNat) 16)

/-- The per-term update of the accumulator, shared by the loop and the
spec-level fold. -/
def accumStep (input : List Int) (lag : Nat) (scale : Int)
    (acc : Int) (i : Nat) : Int :=
  toS32 (acc + asr (toS32 (input.getD i 0 * input.getD (i + lag) 0)) scale)

theorem specAccum_eq_foldl (input : List Int) (lag : Nat) (scale : Int)
    (n : Nat) :
    specAccum input lag scale n =
      (List.range' 0 n).foldl (accumStep input lag scale) 0 := by
  rw [specAccum, List.range_eq_range']
  rfl

/-- The inner loop, run with all reads in bounds, computes the fold of
`accumStep` over the index range it traverses. -/
theorem accumLoop_eq (input : List Int) (lag : Nat) (scale : Int)
    (fuel : Nat) :
    ∀ (i : Nat) (acc : Int), i + fuel + lag ≤ input.length →
      accumLoop input lag scale i fuel acc =
        some ((List.range' i fuel).foldl (accumStep input lag scale) acc) := by
  induction fuel with
  | zero => intro i acc _; rfl
  | succ fuel ih =>
    intro i acc h
    have h1 : i < input.length := by omega
    have h2 : i + lag < input.length := by omega
    have e1 : input.getD i 0 = input[i] := by
      simp [List.getD_eq_getElem?_getD, List.getElem?_eq_getElem h1]
    have e2 : input.getD (i + lag) 0 = input[i + lag] := by
      simp [List.getD_eq_getElem?_getD, List.getElem?_eq_getElem h2]
    rw [List.range'_succ, List.foldl_cons]
    simp only [accumLoop, List.getElem?_eq_getElem h1,
      List.getElem?_eq_getElem h2]
    rw [ih (i + 1) _ (by omega)]
    simp only [accumStep, e1, e2]

/-- The inner loop starting from index `0` with accumulator `0` computes
`specAccum` whenever all its reads are in bounds (or it performs none). -/
theorem accumLoop_specAccum (input : List Int) (lag : Nat) (scale : Int)
    (n : Nat) (h : n + lag ≤ input.length ∨ n = 0) :
    accumLoop input lag scale 0 n 0 = some (specAccum input lag scale n) := by
  rcases h with h | h
  · rw [accumLoop_eq input lag scale n 0 0 (by omega),
      specAccum_eq_foldl]
  · subst h; rfl

/-- Characterisation of the outer loop: starting at lag `lag` with `fuel`
remaining iterations, it succeeds, preserves the length of the output
buffer, leaves every slot outside `[lag, lag + fuel)` unchanged and stores
`specCoeff` in every slot inside. -/
theorem outerLoop_eq (input : List Int) (dataSize scale : Int)
    (hin : dataSize.toNat ≤ input.length) (fuel : Nat) :
    ∀ (lag : Nat) (out : List Int), lag + fuel ≤ out.length →
      ∃ r, outerLoop input dataSize scale lag fuel out = some r ∧
        r.length = out.length ∧
        (∀ k, k < lag ∨ lag + fuel ≤ k → r[k]? = out[k]?) ∧
        (∀ k, lag ≤ k → k < lag + fuel →
          r[k]? = some (specCoeff input dataSize scale k)) := by
  induction fuel with
  | zero =>
    intro lag out _
    exact ⟨out, rfl, rfl, fun _ _ => rfl, fun k h1 h2 => by omega⟩
  | succ fuel ih =>
    intro lag out h
    have hacc : accumLoop input lag scale 0 (dataSize - (lag : Int)).toNat 0 =
        some (specAccum input lag scale (dataSize - (lag : Int)).toNat) := by
      apply accumLoop_specAccum
      rcases Nat.eq_zero_or_pos (dataSize - (lag : Int)).toNat with h0 | h0
      · right; exact h0
      · left; omega
    have hlag : lag < out.length := by omega
    obtain ⟨r, hr, hrl, hfr, hco⟩ :=
      ih (lag + 1)
        (out.set lag (toS16 (asr (specAccum input lag scale
          (dataSize - (lag : Int)).toNat) 16)))
        (by rw [List.length_set]; omega)
    refine ⟨r, ?_, by rw [hrl, List.length_set], ?_, ?_⟩
    · simp only [outerLoop, hacc, if_pos hlag]
      exact hr
    · intro k hk
      have hne : lag ≠ k := by omega
      rw [hfr k (by omega), List.getElem?_set_ne hne]
    · intro k hk1 hk2
      rcases Nat.eq_or_lt_of_le hk1 with h' | h'
      · subst h'
        rw [hfr lag (Or.inl (by omega)), List.getElem?_set_self hlag]
        rfl
      · exact hco k h' (by omega)

/-- Master correctness theorem for the embedding: under the caller
contract (the input buffer holds at least `dataSize` elements and the
output buffer at least `numberOfLags` slots) the kernel succeeds, the
output buffer keeps its length, slots at index `≥ numberOfLags` are
untouched, and slot `L < numberOfLags` holds `specCoeff L`. -/
theorem fxpAutoCorrelation_spec (input out : List Int)
    (dataSize numberOfLags scale : Int)
    (hin : dataSize.toNat ≤ input.length)
    (hout : numberOfLags.toNat ≤ out.length) :
    ∃ r, fxpAutoCorrelation input out dataSize numberOfLags scale = some r ∧
      r.length = out.length ∧
      (∀ k, numberOfLags.toNat ≤ k → r[k]? = out[k]?) ∧
      (∀ k, k < numberOfLags.toNat →
        r[k]? = some (specCoeff input dataSize scale k)) := by
  obtain ⟨r, hr, hrl, hfr, hco⟩ :=
    outerLoop_eq input dataSize scale hin numberOfLags.toNat 0 out
      (by omega)
  exact ⟨r, hr, hrl, fun k hk => hfr k (by omega),
    fun k hk => hco k (by omega) (by omega)⟩

/-- If every element of the input is zero, the accumulator is zero at every
lag, scale and term count. -/
theorem specAccum_of_zero_input (input : List Int) (lag : Nat) (scale : Int)
    (hz : ∀ x ∈ input, x = 0) (n : Nat) :
    specAccum input lag scale n = 0 := by
  have hd : ∀ i : Nat, input.getD i 0 = 0 := by
    intro i
    rw [List.getD_eq_getElem?_getD]
    cases h : input[i]? with
    | none => rfl
    | some a => exact hz a (List.getElem?_mem h)
  rw [specAccum]
  have : ∀ l : List Nat,
      l.foldl (fun acc i =>
        toS32 (acc + asr (toS32 (input.getD i 0 * input.getD (i + lag) 0))
          scale)) 0 = 0 := by
    intro l
    induction l with
    | nil => rfl
    | cons x xs ih =>
      rw [List.foldl_cons, hd x, hd (x + lag)]
      simpa [toS32, asr] using ih
  exact this (List.range n)

/-- The accumulator at lag `0` is the scaled, wrapped sum of squares of the
first `n` samples. -/
def sumSquaresAcc (input : List Int) (scale : Int) (n : Nat) : Int :=
  (List.range n).foldl
    (fun acc i => toS32 (acc + asr (toS32 (input.getD i 0 * input.getD i 0)) scale))
    0

theorem sumSquaresAcc_eq_specAccum (input : List Int) (scale : Int) (n : Nat) :
    sumSquaresAcc input scale n = specAccum input 0 scale n := rfl

/-- C1: for every input sequence with at least `dataSize` elements and every
lag `L` with `0 ≤ L < numberOfLags` (where `0 ≤ numberOfLags < dataSize` and
`scale ≥ 0`), the `L`-th output of `fxpAutoCorrelation` equals the 16-bit
two's-complement truncation of the arithmetic right shift by 16 of the
32-bit accumulator formed by summing, for `i` from `0` to `dataSize-L-1`,
the 32-bit widened product `input[i] * input[i+L]` arithmetically
right-shifted by `scale` bits. -/
theorem fxpAutoCorrelation_output_eq_specAccum (input out : List Int)
    (dataSize numberOfLags scale : Int) (L : Nat)
    (hds : dataSize ≤ (input.length : Int))
    (hnl0 : 0 ≤ numberOfLags) (hnl : numberOfLags < dataSize)
    (hs : 0 ≤ scale)
    (hout : numberOfLags ≤ (out.length : Int))
    (hL : (L : Int) < numberOfLags) :
    ∃ r, fxpAutoCorrelation input out dataSize numberOfLags scale = some r ∧
      r[L]? = some (toS16 (asr
        (specAccum input L scale (dataSize - (L : Int)).toNat) 16)) := by
  obtain ⟨r, hr, _, _, hco⟩ :=
    fxpAutoCorrelation_spec input out dataSize numberOfLags scale
      (by omega) (by omega)
  exact ⟨r, hr, hco L (by omega)⟩

/-- Witness for C1 at the spec's concrete scenario, lag `1`. -/
theorem fxpAutoCorrelation_output_eq_specAccum_witness :
    ∃ r, fxpAutoCorrelation [4, 2, 1, -3, 5] [0, 0, 0] 5 3 0 = some r ∧
      r[1]? = some (-1) := by
  obtain ⟨r, hr, h1⟩ :=
    fxpAutoCorrelation_output_eq_specAccum [4, 2, 1, -3, 5] [0, 0, 0] 5 3 0 1
      (by decide) (by decide) (by decide) (by decide) (by decide) (by decide)
  refine ⟨r, hr, ?_⟩
  rw [h1]
  decide

/-- C2: on the spec's concrete scenario `input = [4, 2, 1, -3, 5]`,
`dataSize = 5`, `numberOfLags = 3`, `scale = 0`, the kernel produces exactly
`[0, -1, 0]`: `output[0] = 55 >> 16 = 0`, `output[1] = (-8) >> 16 = -1`
(arithmetic shift), `output[2] = 3 >> 16 = 0`. -/
theorem fxpAutoCorrelation_concrete_scenario :
    fxpAutoCorrelation [4, 2, 1, -3, 5] [0, 0, 0] 5 3 0 =
      some [0, -1, 0] := by decide

/-- C3 counterexample: at the spec's own concrete scenario (a valid call on
a non-degenerate input), `|output[1]| = 1 > 0 = |output[0]|`, so the lag-0
coefficient does not have the largest magnitude of all outputs. -/
theorem fxpAutoCorrelation_lag0_not_dominant :
    ¬ ((((fxpAutoCorrelation [4, 2, 1, -3, 5] [0, 0, 0] 5 3 0).getD
          []).getD 1 0).natAbs ≤
       (((fxpAutoCorrelation [4, 2, 1, -3, 5] [0, 0, 0] 5 3 0).getD
          []).getD 0 0).natAbs) := by decide

/-- C3 (amended): for every valid call, `output[0]` equals the scaled,
truncated (and 32-bit wrapped) sum of squares of all `dataSize` samples. -/
theorem fxpAutoCorrelation_lag0_energy (input out : List Int)
    (dataSize numberOfLags scale : Int)
    (hds : dataSize ≤ (input.length : Int))
    (hnl0 : 0 < numberOfLags) (hnl : numberOfLags < dataSize)
    (hs : 0 ≤ scale)
    (hout : numberOfLags ≤ (out.length : Int)) :
    ∃ r, fxpAutoCorrelation input out dataSize numberOfLags scale = some r ∧
      r[0]? = some (toS16 (asr (sumSquaresAcc input scale dataSize.toNat) 16)) := by
  obtain ⟨r, hr, _, _, hco⟩ :=
    fxpAutoCorrelation_spec input out dataSize numberOfLags scale
      (by omega) (by omega)
  refine ⟨r, hr, ?_⟩
  rw [hco 0 (by omega)]
  simp [specCoeff, sumSquaresAcc_eq_specAccum]

/-- Witness for the amended C3 at the spec's concrete scenario. -/
theorem fxpAutoCorrelation_lag0_energy_witness :
    ∃ r, fxpAutoCorrelation [4, 2, 1, -3, 5] [0, 0, 0] 5 3 0 = some r ∧
      r[0]? = some 0 := by
  obtain ⟨r, hr, h0⟩ :=
    fxpAutoCorrelation_lag0_energy [4, 2, 1, -3, 5] [0, 0, 0] 5 3 0
      (by decide) (by decide) (by decide) (by decide) (by decide)
  refine ⟨r, hr, ?_⟩
  rw [h0]
  decide

/-- C4: on an all-zero input, every output coefficient of a valid call is
exactly zero. -/
theorem fxpAutoCorrelation_zero_input (input out : List Int)
    (dataSize numberOfLags scale : Int)
    (hz : ∀ x ∈ input, x = 0)
    (hds : dataSize ≤ (input.length : Int))
    (hnl0 : 0 ≤ numberOfLags) (hnl : numberOfLags < dataSize)
    (hs : 0 ≤ scale)
    (hout : numberOfLags ≤ (out.length : Int)) :
    ∃ r, fxpAutoCorrelation input out dataSize numberOfLags scale = some r ∧
      ∀ k, k < numberOfLags.toNat → r[k]? = some 0 := by
  obtain ⟨r, hr, _, _, hco⟩ :=
    fxpAutoCorrelation_spec input out dataSize numberOfLags scale
      (by omega) (by omega)
  refine ⟨r, hr, fun k hk => ?_⟩
  rw [hco k hk, specCoeff, specAccum_of_zero_input input k scale hz]
  decide

/-- Witness for C4: `input = [0, 0]`, one lag, output slot initially `7`. -/
theorem fxpAutoCorrelation_zero_input_witness :
    ∃ r, fxpAutoCorrelation [0, 0] [7] 2 1 0 = some r ∧ r[0]? = some 0 := by
  obtain ⟨r, hr, hk⟩ :=
    fxpAutoCorrelation_zero_input [0, 0] [7] 2 1 0
      (by decide) (by decide) (by decide) (by decide) (by decide) (by decide)
  exact ⟨r, hr, hk 0 (by decide)⟩

/-- Reference inner loop for the scale-0 variant: products are taken in the
32-bit signed domain and summed without a per-term shift. -/
def refAccumLoop (input : List Int) (lag : Nat) :
    Nat → Nat → Int → Option Int
  | _, 0, acc => some acc
  | i, fuel + 1, acc =>
    match input[i]?, input[i + lag]? with
    | some a, some b =>
        refAccumLoop input lag (i + 1) fuel (toS32 (acc + toS32 (a * b)))
    | _, _ => none

/-- Reference outer loop for the scale-0 variant. -/
def refOuterLoop (input : List Int) (dataSize : Int) :
    Nat → Nat → List Int → Option (List Int)
  | _, 0, out => some out
  | lag, fuel + 1, out =>
    match refAccumLoop input lag 0 (dataSize - (lag : Int)).toNat 0 with
    | none => none
    | some acc =>
        if lag < out.length then
          refOuterLoop input dataSize (lag + 1) fuel
            (out.set lag (toS16 (asr acc 16)))
        else none

/-- Reference variant following the spec's words for the scale-0 property:
each lag coefficient is computed by multiplying sample pairs in the 32-bit
signed domain and summing the unshifted per-term products before the final
16-bit extraction. -/
def refAutoCorrelation (input out : List Int)
    (dataSize numberOfLags : Int) : Option (List Int) :=
  refOuterLoop input dataSize 0 numberOfLags.toNat out

theorem asr_zero (x : Int) : asr x 0 = x := by
  simp [asr]

theorem accumLoop_scale_zero (input : List Int) (lag : Nat) (fuel : Nat) :
    ∀ (i : Nat) (acc : Int),
      accumLoop input lag 0 i fuel acc = refAccumLoop input lag i fuel acc := by
  induction fuel with
  | zero => intro i acc; rfl
  | succ fuel ih =>
    intro i acc
    simp only [accumLoop, refAccumLoop]
    cases input[i]? <;> cases input[i + lag]? <;>
      simp only [asr_zero, ih]

theorem outerLoop_scale_zero (input : List Int) (dataSize : Int)
    (fuel : Nat) :
    ∀ (lag : Nat) (out : List Int),
      outerLoop input dataSize 0 lag fuel out =
        refOuterLoop input dataSize lag fuel out := by
  induction fuel with
  | zero => intro lag out; rfl
  | succ fuel ih =>
    intro lag out
    simp only [outerLoop, refOuterLoop, accumLoop_scale_zero]
    cases refAccumLoop input lag 0 (dataSize - (lag : Int)).toNat 0 with
    | none => rfl
    | some acc =>
      by_cases hl : lag < out.length
      · simp only [if_pos hl, ih]
      · simp only [if_neg hl]

/-- C5: with `scale = 0` the kernel computes exactly what the reference
variant computes — the per-term shift is an identity. -/
theorem fxpAutoCorrelation_scale_zero_ref (input out : List Int)
    (dataSize numberOfLags : Int) :
    fxpAutoCorrelation input out dataSize numberOfLags 0 =
      refAutoCorrelation input out dataSize numberOfLags :=
  outerLoop_scale_zero input dataSize numberOfLags.toNat 0 out

/-- C6: the kernel is deterministic — two invocations on identical
arguments produce identical output sequences. -/
theorem fxpAutoCorrelation_deterministic (input out : List Int)
    (dataSize numberOfLags scale : Int) (r1 r2 : List Int)
    (h1 : fxpAutoCorrelation input out dataSize numberOfLags scale = some r1)
    (h2 : fxpAutoCorrelation input out dataSize numberOfLags scale = some r2) :
    r1 = r2 := by
  rw [h1] at h2
  exact Option.some.inj h2

/-- Witness for C6 at the spec's concrete scenario. -/
theorem fxpAutoCorrelation_deterministic_witness :
    ([0, -1, 0] : List Int) = [0, -1, 0] :=
  fxpAutoCorrelation_deterministic [4, 2, 1, -3, 5] [0, 0, 0] 5 3 0
    [0, -1, 0] [0, -1, 0] (by decide) (by decide)

/-- C7: under the caller contract (`0 ≤ numberOfLags < dataSize`, input
buffer of at least `dataSize` elements, output buffer of at least
`numberOfLags` slots) every array access is in bounds: the `Option`-indexed
embedding never reaches its out-of-bounds branch. -/
theorem fxpAutoCorrelation_memory_safe (input out : List Int)
    (dataSize numberOfLags scale : Int)
    (hnl0 : 0 ≤ numberOfLags) (hnl : numberOfLags < dataSize)
    (hds : dataSize ≤ (input.length : Int))
    (hout : numberOfLags ≤ (out.length : Int)) :
    ∃ r, fxpAutoCorrelation input out dataSize numberOfLags scale = some r := by
  obtain ⟨r, hr, -, -, -⟩ :=
    fxpAutoCorrelation_spec input out dataSize numberOfLags scale
      (by omega) (by omega)
  exact ⟨r, hr⟩

/-- Witness for C7. -/
theorem fxpAutoCorrelation_memory_safe_witness :
    ∃ r, fxpAutoCorrelation [1, 2, 3] [9, 9] 3 2 5 = some r :=
  fxpAutoCorrelation_memory_safe [1, 2, 3] [9, 9] 3 2 5
    (by decide) (by decide) (by decide) (by decide)

/-- C8: the kernel only writes the first `numberOfLags` slots of the output
buffer — the buffer keeps its length and every slot at index
`≥ numberOfLags` is unchanged (the input buffer and all other state are
untouched by construction of the embedding: the kernel is a pure function
of its arguments). -/
theorem fxpAutoCorrelation_frame (input out : List Int)
    (dataSize numberOfLags scale : Int)
    (hds : dataSize ≤ (input.length : Int))
    (hout : numberOfLags ≤ (out.length : Int)) :
    ∃ r, fxpAutoCorrelation input out dataSize numberOfLags scale = some r ∧
      r.length = out.length ∧
      ∀ k, numberOfLags.toNat ≤ k → r[k]? = out[k]? := by
  obtain ⟨r, hr, hl, hf, -⟩ :=
    fxpAutoCorrelation_spec input out dataSize numberOfLags scale
      (by omega) (by omega)
  exact ⟨r, hr, hl, hf⟩

/-- Witness for C8: slot `3` (beyond the `2` requested lags) keeps its
initial value `9`. -/
theorem fxpAutoCorrelation_frame_witness :
    ∃ r, fxpAutoCorrelation [1, 2, 3] [9, 9, 9, 9] 3 2 0 = some r ∧
      r.length = 4 ∧ r[3]? = some 9 := by
  obtain ⟨r, hr, hl, hf⟩ :=
    fxpAutoCorrelation_frame [1, 2, 3] [9, 9, 9, 9] 3 2 0
      (by decide) (by decide)
  refine ⟨r, hr, by simpa using hl, ?_⟩
  rw [hf 3 (by decide)]
  decide

/-- C9: with `numberOfLags ≤ 0` the outer loop body never runs: the kernel
reads nothing (it succeeds even on an empty input buffer) and returns the
output buffer unchanged. -/
theorem fxpAutoCorrelation_no_lags (input out : List Int)
    (dataSize numberOfLags scale : Int) (h : numberOfLags ≤ 0) :
    fxpAutoCorrelation input out dataSize numberOfLags scale = some out := by
  have h0 : numberOfLags.toNat = 0 := by omega
  rw [fxpAutoCorrelation, h0]
  rfl

/-- Witness for C9 at the boundary `numberOfLags = 0`, with an empty input
buffer (demonstrating that no read happens). -/
theorem fxpAutoCorrelation_no_lags_witness :
    fxpAutoCorrelation [] [5] 10 0 3 = some [5] :=
  fxpAutoCorrelation_no_lags [] [5] 10 0 3 (by decide)

/-- C10: each output coefficient is independent of the requested lag count:
for `0 ≤ n ≤ m < dataSize`, the first `n` outputs of a call with `m` lags
coincide with the outputs of a call with `n` lags. -/
theorem fxpAutoCorrelation_prefix (input out1 out2 : List Int)
    (dataSize scale n m : Int)
    (h0 : 0 ≤ n) (hnm : n ≤ m) (hm : m < dataSize)
    (hds : dataSize ≤ (input.length : Int))
    (hout1 : m ≤ (out1.length : Int)) (hout2 : n ≤ (out2.length : Int)) :
    ∃ r1 r2, fxpAutoCorrelation input out1 dataSize m scale = some r1 ∧
      fxpAutoCorrelation input out2 dataSize n scale = some r2 ∧
      ∀ k, k < n.toNat → r1[k]? = r2[k]? := by
  obtain ⟨r1, hr1, -, -, hco1⟩ :=
    fxpAutoCorrelation_spec input out1 dataSize m scale (by omega) (by omega)
  obtain ⟨r2, hr2, -, -, hco2⟩ :=
    fxpAutoCorrelation_spec input out2 dataSize n scale (by omega) (by omega)
  refine ⟨r1, r2, hr1, hr2, fun k hk => ?_⟩
  rw [hco1 k (by omega), hco2 k hk]

/-- Witness for C10: the `3`-lag and `2`-lag runs on the spec's concrete
input agree at lag `1`. -/
theorem fxpAutoCorrelation_prefix_witness :
    ∃ r1 r2, fxpAutoCorrelation [4, 2, 1, -3, 5] [0, 0, 0] 5 3 0 = some r1 ∧
      fxpAutoCorrelation [4, 2, 1, -3, 5] [0, 0] 5 2 0 = some r2 ∧
      r1[1]? = r2[1]? := by
  obtain ⟨r1, r2, h1, h2, hk⟩ :=
    fxpAutoCorrelation_prefix [4, 2, 1, -3, 5] [0, 0, 0] [0, 0] 5 0 2 3
      (by decide) (by decide) (by decide) (by decide) (by decide) (by decide)
  exact ⟨r1, r2, h1, h2, hk 1 (by decide)⟩
